import Mathlib

/-!
Shallow embedding of the openapi-to-llm-text converter (src/index.ts).
JavaScript field access on possibly-absent fields is modelled with Option;
JavaScript truthiness on strings (empty string is falsy) and on numbers
(zero is falsy) is made explicit through small helper functions.
-/

/-- Models the JavaScript expression `x || d` where `x` is a string field that
may be absent: an absent field or an empty string falls back to `d`. -/
def jsOrStr (o : Option String) (d : String) : String :=
  match o with
  | some s => if s = "" then d else s
  | none => d

/-- Models a JavaScript truthiness test on a string field: yields the string
only when the field is present and non-empty. -/
def truthyStr (o : Option String) : Option String :=
  match o with
  | some s => if s = "" then none else some s
  | none => none

/-- Models JavaScript template-literal interpolation of a possibly-undefined
string: an absent value prints as the literal text undefined. -/
def optToStr (o : Option String) : String :=
  o.getD "undefined"

/-- Models JavaScript Array.prototype.join with a separator. -/
def jsJoin (sep : String) : List String → String
  | [] => ""
  | [x] => x
  | x :: y :: rest => x ++ sep ++ jsJoin sep (y :: rest)

/-- Worker for the JavaScript expression `str.split(sep)` with separator slash:
walks the character list, cutting at every slash. -/
def splitSlashAux : List Char → List Char → List String
  | [], acc => [String.mk acc.reverse]
  | c :: rest, acc =>
    if c = '/' then String.mk acc.reverse :: splitSlashAux rest []
    else splitSlashAux rest (c :: acc)

/-- Models the JavaScript expression `str.split(sep)` with a slash separator. -/
def splitSlash (s : String) : List String :=
  splitSlashAux s.data []

/-- Models the JavaScript expression `ref.split(sep).pop()` on a slash
separator: the last segment of the split (the split list is never empty). -/
def lastSegment (r : String) : String :=
  (splitSlash r).getLastD ""

/-- The substring of a string after its last slash, stated directly: scan left
to right, restarting the collected suffix after every slash. -/
def afterLastSlash (r : String) : String :=
  String.mk (r.data.foldl (fun a c => if c = '/' then [] else a ++ [c]) [])

/-- Models JavaScript String.prototype.toUpperCase for the ASCII method names
used by the converter. -/
def jsToUpper (s : String) : String :=
  String.mk (s.data.map Char.toUpper)

/-- A schema node as the converter reads it: every field the source code ever
accesses on a schema object, each possibly absent.  (src/index.ts accesses
$ref, allOf, oneOf, anyOf, type, properties, required, items, format, enum.) -/
inductive Schema where
  | mk
      (ref : Option String)
      (allOf : Option (List Schema))
      (oneOf : Option (List Schema))
      (anyOf : Option (List Schema))
      (type : Option String)
      (properties : Option (List (String × Schema)))
      (required : Option (List String))
      (items : Option Schema)
      (format : Option String)
      (enum : Option (List String))

def Schema.ref : Schema → Option String
  | .mk r _ _ _ _ _ _ _ _ _ => r

def Schema.allOf : Schema → Option (List Schema)
  | .mk _ a _ _ _ _ _ _ _ _ => a

def Schema.oneOf : Schema → Option (List Schema)
  | .mk _ _ o _ _ _ _ _ _ _ => o

def Schema.anyOf : Schema → Option (List Schema)
  | .mk _ _ _ a _ _ _ _ _ _ => a

def Schema.type : Schema → Option String
  | .mk _ _ _ _ t _ _ _ _ _ => t

def Schema.properties : Schema → Option (List (String × Schema))
  | .mk _ _ _ _ _ p _ _ _ _ => p

def Schema.required : Schema → Option (List String)
  | .mk _ _ _ _ _ _ r _ _ _ => r

def Schema.items : Schema → Option Schema
  | .mk _ _ _ _ _ _ _ i _ _ => i

def Schema.format : Schema → Option String
  | .mk _ _ _ _ _ _ _ _ f _ => f

def Schema.enum : Schema → Option (List String)
  | .mk _ _ _ _ _ _ _ _ _ e => e

/-- A schema node with every field absent. -/
def emptySchema : Schema :=
  .mk none none none none none none none none none none

/-- A schema node carrying only a $ref. -/
def refSchema (r : String) : Schema :=
  .mk (some r) none none none none none none none none none

/-- A schema node carrying only a type. -/
def primSchema (t : String) : Schema :=
  .mk none none none none (some t) none none none none none

/-- A schema node with type object and the given properties. -/
def objSchema (props : List (String × Schema)) : Schema :=
  .mk none none none none (some "object") (some props) none none none none

/-- The render-context tag of resolveSchemaType (src/index.ts). -/
inductive SchemaTypeContext where
  | parameter
  | requestBody
  | response
deriving DecidableEq, Repr

/-- The options record of resolveSchemaType; absent fields take the
context-derived defaults inside the function, as in the source. -/
structure ResolveSchemaTypeOptions where
  context : SchemaTypeContext
  includeFormat : Option Bool
  includeProperties : Option Bool
  limitProperties : Option Nat

/-- The per-context unknown placeholder of resolveSchemaType. -/
def unknownValue (c : SchemaTypeContext) : String :=
  if c = .parameter then "unknown" else "Unknown"

/-- The branch-rendering map applied inside resolveSchemaType to the branches
of an allOf/oneOf/anyOf composition in requestBody context (src/index.ts):
a truthy $ref renders as its trailing segment; an inline object renders its
first property names in braces; anything else renders its type or inline. -/
def branchRequestBody (s : Schema) : String :=
  match truthyStr s.ref with
  | some r => lastSegment r
  | none =>
    if s.type = some "object" ∧ s.properties.isSome then
      let props := (s.properties.getD []).map Prod.fst
      if props.length ≤ 3 then "\x7b" ++ jsJoin ", " props ++ "\x7d"
      else "\x7b" ++ jsJoin ", " (props.take 3) ++ ", ...\x7d"
    else jsOrStr s.type "inline"

/-- resolveSchemaType on a present schema node (src/index.ts): one single-line
type descriptor, with verbosity depending on the render context. -/
def resolveSchemaTypeCore : Schema → ResolveSchemaTypeOptions → String
  | .mk ref allOf oneOf anyOf ty props _ items fmt en, opts =>
    let context := opts.context
    let includeFormat := opts.includeFormat.getD (context = .response)
    let includeProperties := opts.includeProperties.getD true
    let limitProperties :=
      match opts.limitProperties with
      | some n => some n
      | none => if context = .requestBody then some 3 else none
    let u := unknownValue context
    match ref with
    | some r =>
      let seg := lastSegment r
      if seg = "" then u else seg
    | none =>
      match allOf with
      | some bs =>
        if context = .requestBody then
          "allOf: [" ++ jsJoin ", " (bs.map branchRequestBody) ++ "]"
        else u
      | none =>
        match oneOf with
        | some bs =>
          if context = .requestBody then
            "oneOf: [" ++ jsJoin ", " (bs.map branchRequestBody) ++ "]"
          else u
        | none =>
          match anyOf with
          | some bs =>
            if context = .requestBody then
              "anyOf: [" ++ jsJoin ", " (bs.map branchRequestBody) ++ "]"
            else u
          | none =>
            if ty = some "array" then
              if context = .parameter then "array"
              else
                match items with
                | none => "array"
                | some it =>
                  match it.ref with
                  | some r =>
                    let seg := lastSegment r
                    "Array of " ++ (if seg = "" then u else seg)
                  | none =>
                    if it.type = some "object" then "Array of object"
                    else "Array of " ++ resolveSchemaTypeCore it opts
            else if ty = some "object" then
              let pk := (props.getD []).map Prod.fst
              if includeProperties ∧ props.isSome ∧ pk.length > 0 then
                let names :=
                  match limitProperties with
                  | some n =>
                    if n ≠ 0 ∧ pk.length > n then
                      jsJoin ", " (pk.take n) ++ "..."
                    else jsJoin ", " pk
                  | none => jsJoin ", " pk
                "Object (" ++ names ++ ")"
              else "object"
            else if ty = some "string" ∨ ty = some "integer" ∨ ty = some "number" then
              let t := ty.getD ""
              match en with
              | some vs => t ++ " [" ++ jsJoin ", " vs ++ "]"
              | none =>
                match truthyStr fmt with
                | some f => if includeFormat then t ++ " (format: " ++ f ++ ")" else t
                | none => t
            else
              match truthyStr ty with
              | some t => t
              | none => u

/-- resolveSchemaType (src/index.ts): an absent schema renders as the unknown
placeholder, otherwise defer to the node renderer. -/
def resolveSchemaType (schema : Option Schema) (opts : ResolveSchemaTypeOptions) : String :=
  match schema with
  | none => unknownValue opts.context
  | some s => resolveSchemaTypeCore s opts

/-- A parameter node as the converter reads it (src/index.ts
formatParameters / resolveParameterRef): every field accessed, each possibly
absent; the field named in by the source is modelled as inLoc. -/
structure Param where
  ref : Option String
  name : Option String
  inLoc : Option String
  required : Bool
  schema : Option Schema
  type : Option String
  enum : Option (List String)
  description : Option String

/-- A server entry of the servers list. -/
structure Server where
  url : String
  description : Option String

/-- The info object: title and version are interpolated directly. -/
structure Info where
  title : String
  version : String
  description : Option String

/-- A media-type entry under content. -/
structure MediaType where
  schema : Option Schema

/-- A request body (OpenAPI 3.x). -/
structure RequestBody where
  content : Option (List (String × MediaType))

/-- A response entry: 3.x carries content, Swagger 2.0 carries schema. -/
structure Response where
  description : Option String
  content : Option (List (String × MediaType))
  schema : Option Schema

/-- An operation node: the fields formatOperation reads. -/
structure Operation where
  summary : Option String
  parameters : Option (List Param)
  requestBody : Option RequestBody
  responses : Option (List (String × Response))

/-- A path item: an object whose keys may include HTTP method names; a value
may be null (the source skips falsy operations). -/
def PathItem : Type := List (String × Option Operation)

/-- A security scheme: the fields formatSecurity reads. -/
structure SecurityScheme where
  type : Option String
  inLoc : Option String
  name : Option String
  scheme : Option String

/-- The components object of an OpenAPI 3.x document. -/
structure Components where
  schemas : Option (List (String × Schema))
  securitySchemes : Option (List (String × SecurityScheme))
  parameters : Option (List (String × Param))

/-- An OpenAPI/Swagger document as the converter reads it: the union of the
fields accessed on either version. -/
structure Document where
  swagger : Option String
  host : Option String
  basePath : Option String
  schemes : Option (List String)
  info : Info
  servers : Option (List Server)
  paths : Option (List (String × Option PathItem))
  definitions : Option (List (String × Schema))
  securityDefinitions : Option (List (String × SecurityScheme))
  components : Option Components
  parameters : Option (List (String × Param))

/-- isSwagger2 (src/index.ts): the swagger field is present and equals 2.0. -/
def isSwagger2 (doc : Document) : Bool :=
  doc.swagger = some "2.0"

/-- resolveParameterRef (src/index.ts): take the trailing segment of the
reference and look it up in the version-appropriate collection (OpenAPI 3.x:
components.parameters; Swagger 2.0: top-level parameters). -/
def resolveParameterRef (ref : String) (doc : Document) : Option Param :=
  let paramName := lastSegment ref
  if ¬ isSwagger2 doc then
    match doc.components with
    | some c =>
      match c.parameters with
      | some ps => ps.lookup paramName
      | none => none
    | none => none
  else
    match doc.parameters with
    | some ps => ps.lookup paramName
    | none => none

/-- The parameter line pushed by the loop body of formatParameters
(src/index.ts): name and location fall back to the literal text undefined,
the type comes from the schema (3.x) or the direct type field (2.0), and the
description falls back to No description. -/
def paramLine (p : Param) : String :=
  let required := if p.required then "required" else "optional"
  let type :=
    match p.schema with
    | some s => resolveSchemaTypeCore s ⟨.parameter, none, none, none⟩
    | none =>
      match truthyStr p.type with
      | some t =>
        if t = "array" then "array"
        else if t = "file" then "file"
        else
          match p.enum with
          | some vs => t ++ " [" ++ jsJoin ", " vs ++ "]"
          | none => t
      | none => "unknown"
  "    - " ++ jsOrStr p.name "undefined" ++ " (" ++ jsOrStr p.inLoc "undefined" ++
    ", " ++ type ++ " (" ++ required ++ ")): " ++ jsOrStr p.description "No description"

/-- formatParameters (src/index.ts): resolve $ref entries (dropping the entry
when resolution fails), render one line per surviving parameter, and emit the
Parameters heading only when at least one line was produced. -/
def formatParameters (parameters : List Param) (doc : Document) : List String :=
  let paramLines := parameters.flatMap (fun p =>
    match p.ref with
    | some r =>
      match resolveParameterRef r doc with
      | none => []
      | some rp => [paramLine rp]
    | none => [paramLine p])
  if paramLines = [] then [] else "  Parameters:" :: paramLines

/-- formatRequestBody (src/index.ts). -/
def formatRequestBody (rb : RequestBody) : List String :=
  "  Request Body:" ::
    (match rb.content with
     | some cs => cs.flatMap (fun e =>
         ["    Content: " ++ e.1,
          "    Schema: " ++ resolveSchemaType e.2.schema ⟨.requestBody, none, none, none⟩])
     | none => [])

/-- formatResponses (src/index.ts). -/
def formatResponses (responses : List (String × Response)) : List String :=
  "  Responses:" ::
    responses.flatMap (fun e =>
      ("    " ++ e.1 ++ ": " ++ jsOrStr e.2.description "No description") ::
        (match e.2.content with
         | some cs => cs.flatMap (fun m =>
             ["      Content: " ++ m.1,
              "      Schema: " ++ resolveSchemaType m.2.schema ⟨.response, none, none, none⟩])
         | none =>
           match e.2.schema with
           | some sch => ["      Schema: " ++ resolveSchemaTypeCore sch ⟨.response, none, none, none⟩]
           | none => []))

/-- formatOperation (src/index.ts). -/
def formatOperation (method path : String) (op : Operation) (doc : Document) : List String :=
  [jsToUpper method ++ " " ++ path]
  ++ (match truthyStr op.summary with
      | some s => ["  Summary: " ++ s]
      | none => [])
  ++ (match op.parameters with
      | some ps => if ps.length > 0 then formatParameters ps doc else []
      | none => [])
  ++ (match op.requestBody with
      | some rb => formatRequestBody rb
      | none => [])
  ++ (match op.responses with
      | some rs => formatResponses rs
      | none => [])
  ++ [""]

/-- The fixed list of HTTP method keys recognised by formatEndpoints. -/
def allPossibleMethods : List String :=
  ["get", "put", "post", "delete", "options", "head", "patch", "trace"]

/-- formatEndpoints (src/index.ts): the ENDPOINTS heading followed by each
path item's operations, taking the method keys in key order. -/
def formatEndpoints (paths : List (String × Option PathItem)) (doc : Document) : List String :=
  "\nENDPOINTS:\n" ::
    paths.flatMap (fun e =>
      match e.2 with
      | none => []
      | some pi =>
        let methods := (pi.map Prod.fst).filter (fun k => allPossibleMethods.contains k)
        methods.flatMap (fun m =>
          match pi.lookup m with
          | some (some op) => formatOperation m e.1 op doc
          | _ => []))

/-- formatHeader (src/index.ts). -/
def formatHeader (info : Info) (servers : Option (List Server)) : List String :=
  ["API: " ++ info.title ++ " v" ++ info.version]
  ++ (match truthyStr info.description with
      | some d => ["Description: " ++ d]
      | none => [])
  ++ (match servers with
      | some (primary :: rest) =>
        ("\nBase URL: " ++ primary.url) ::
          (if rest.length > 0 then
            "Additional URLs:" ::
              rest.map (fun srv =>
                "  - " ++ srv.url ++
                  (match truthyStr srv.description with
                   | some d => " (" ++ d ++ ")"
                   | none => ""))
          else [])
      | _ => [])

/-- The branch-rendering map used inside the per-property composition cases of
formatSchema (src/index.ts): a truthy $ref renders as its trailing segment,
anything else as its type or the literal inline. -/
def propBranchStr (b : Schema) : String :=
  match truthyStr b.ref with
  | some r => lastSegment r
  | none => jsOrStr b.type "inline"

/-- The per-property type text of the property loop in formatSchema
(src/index.ts): a $ref property renders as the literal object; a composition
renders its branch list, except that a single-branch composition whose branch
carries a $ref key renders that branch's mapped value directly. -/
def propTypeStr (prop : Schema) : String :=
  match prop.ref with
  | some _ => "object"
  | none =>
    match prop.allOf with
    | some bs =>
      let ss := bs.map propBranchStr
      match bs with
      | [b] => if b.ref.isSome then ss.headD "" else "allOf [" ++ jsJoin ", " ss ++ "]"
      | _ => "allOf [" ++ jsJoin ", " ss ++ "]"
    | none =>
      match prop.oneOf with
      | some bs =>
        let ss := bs.map propBranchStr
        match bs with
        | [b] => if b.ref.isSome then ss.headD "" else "oneOf [" ++ jsJoin ", " ss ++ "]"
        | _ => "oneOf [" ++ jsJoin ", " ss ++ "]"
      | none =>
        match prop.anyOf with
        | some bs =>
          let ss := bs.map propBranchStr
          match bs with
          | [b] => if b.ref.isSome then ss.headD "" else "anyOf [" ++ jsJoin ", " ss ++ "]"
          | _ => "anyOf [" ++ jsJoin ", " ss ++ "]"
        | none =>
          if prop.type = some "array" then "array"
          else if prop.type = some "object" then "object"
          else if prop.type = some "string" ∨ prop.type = some "integer" ∨
                  prop.type = some "number" ∨ prop.type = some "boolean" then
            let t := prop.type.getD ""
            match prop.enum with
            | some vs => t ++ " [" ++ jsJoin ", " vs ++ "]"
            | none =>
              match truthyStr prop.format with
              | some f => t ++ " (format: " ++ f ++ ")"
              | none => t
          else
            match truthyStr prop.type with
            | some t => t
            | none => if prop.properties.isSome then "object" else "unknown"

/-- The composition-branch walk of formatSchema (src/index.ts): renders each
branch name while registering every inline object branch as a virtual schema
named \<parent__inline__ordinal\> (angle brackets literal), the ordinal
counter starting at the given value and incrementing per registered branch.
Returns the branch names and the registered (name, schema) pairs in order. -/
def compBranchesAux (pname : String) : Nat → List Schema → List String × List (String × Schema)
  | _, [] => ([], [])
  | k, b :: rest =>
    match truthyStr b.ref with
    | some r =>
      let p := compBranchesAux pname k rest
      (lastSegment r :: p.1, p.2)
    | none =>
      if b.type = some "object" ∧ b.properties.isSome then
        let vn := "<" ++ pname ++ "__inline__" ++ toString k ++ ">"
        let p := compBranchesAux pname (k + 1) rest
        (vn :: p.1, (vn, b) :: p.2)
      else
        let p := compBranchesAux pname k rest
        (jsOrStr b.type "inline" :: p.1, p.2)

/-- formatSchema (src/index.ts): the type-summary line, the indented body
lines, and the virtual schemas registered for this parent (the source threads
a mutable registry; the embedding returns the registered entries). -/
def formatSchema (schema : Schema) (indent : String) (parentSchemaName : Option String) :
    String × List String × List (String × Schema) :=
  let pname := optToStr parentSchemaName
  match schema.allOf with
  | some bs =>
    let p := compBranchesAux pname 1 bs
    ("allOf [" ++ jsJoin ", " p.1 ++ "]", [], p.2)
  | none =>
    match schema.oneOf with
    | some bs =>
      let p := compBranchesAux pname 1 bs
      ("oneOf [" ++ jsJoin ", " p.1 ++ "]", [], p.2)
    | none =>
      match schema.anyOf with
      | some bs =>
        let p := compBranchesAux pname 1 bs
        ("anyOf [" ++ jsJoin ", " p.1 ++ "]", [], p.2)
      | none =>
        if schema.type = some "array" then
          let lines :=
            match schema.items with
            | some it =>
              match it.ref with
              | some r =>
                let seg := lastSegment r
                [indent ++ "items: " ++ (if seg = "" then "unknown" else seg)]
              | none =>
                if it.type = some "object" then [indent ++ "items: object"]
                else [indent ++ "items: " ++ resolveSchemaTypeCore it ⟨.response, none, none, none⟩]
            | none => []
          ("array", lines, [])
        else
          match schema.properties with
          | some props =>
            let req := (schema.required).getD []
            let lines := props.map (fun e =>
              indent ++ "- " ++ e.1 ++ (if req.contains e.1 then "*" else "") ++
                ": " ++ propTypeStr e.2)
            ("object", lines, [])
          | none =>
            if schema.type = some "string" ∨ schema.type = some "integer" ∨
                schema.type = some "number" ∨ schema.type = some "boolean" then
              let t := schema.type.getD ""
              let ts :=
                match schema.enum with
                | some vs => t ++ " [" ++ jsJoin ", " vs ++ "]"
                | none =>
                  match truthyStr schema.format with
                  | some f => t ++ " (format: " ++ f ++ ")"
                  | none => t
              (ts, [], [])
            else
              match truthyStr schema.type with
              | some t => (t, [], [])
              | none => ("unknown", [], [])

/-- formatSchemas (src/index.ts): the SCHEMAS heading and legend, then per
named schema its block followed immediately by the blocks of the virtual
schemas registered while rendering it. -/
def formatSchemas (schemas : List (String × Schema)) : List String :=
  ["SCHEMAS:", "> * = required\n"]
  ++ schemas.flatMap (fun e =>
    let r := formatSchema e.2 "  " (some e.1)
    ([e.1 ++ ": " ++ r.1] ++ r.2.1 ++ [""])
    ++ r.2.2.flatMap (fun v =>
      let vr := formatSchema v.2 "  " (some v.1)
      [v.1 ++ ": " ++ vr.1] ++ vr.2.1 ++ [""]))

/-- formatSecurity (src/index.ts). -/
def formatSecurity (securitySchemes : List (String × SecurityScheme)) : List String :=
  "SECURITY:" ::
    (securitySchemes.flatMap (fun e =>
      let sch := e.2
      if sch.type = some "oauth2" then ["- OAuth2 authentication"]
      else if sch.type = some "apiKey" then
        ["- API Key authentication (" ++ optToStr sch.inLoc ++ ": " ++ optToStr sch.name ++ ")"]
      else if sch.type = some "http" then
        if sch.scheme = some "bearer" then ["- HTTP bearer authentication"]
        else if sch.scheme = some "basic" then ["- HTTP basic authentication"]
        else ["- HTTP " ++ optToStr sch.scheme ++ " authentication"]
      else if sch.type = some "openIdConnect" then ["- OpenID Connect authentication"]
      else if sch.type = some "basic" then ["- HTTP basic authentication"]
      else [])
    ++ [""])

/-- The section list built by openApiToLlmText (src/index.ts) before the final
newline join: header, endpoints, then schemas and security when present, with
the Swagger 2.0 base URL synthesised from scheme, host and basePath. -/
def openApiToLlmTextSections (doc : Document) : List String :=
  if isSwagger2 doc then
    let baseUrl : Option String :=
      match truthyStr doc.host, truthyStr doc.basePath with
      | some h, some b =>
        some (jsOrStr (doc.schemes.bind List.head?) "https" ++ "://" ++ h ++ b)
      | _, _ => none
    formatHeader doc.info (baseUrl.map (fun u => [⟨u, none⟩]))
    ++ formatEndpoints (doc.paths.getD []) doc
    ++ (match doc.definitions with
        | some defs => formatSchemas defs
        | none => [])
    ++ (match doc.securityDefinitions with
        | some sd => formatSecurity sd
        | none => [])
  else
    formatHeader doc.info doc.servers
    ++ formatEndpoints (doc.paths.getD []) doc
    ++ (match doc.components.bind Components.schemas with
        | some s => formatSchemas s
        | none => [])
    ++ (match doc.components.bind Components.securitySchemes with
        | some s => formatSecurity s
        | none => [])

/-- openApiToLlmText (src/index.ts): the section list joined with newlines. -/
def openApiToLlmText (doc : Document) : String :=
  jsJoin "\n" (openApiToLlmTextSections doc)

/-! Concrete documents and schemas used by the claim theorems. -/

/-- The operation of the end-to-end example document: summary S, one 200
response described OK. -/
def exampleOp : Operation where
  summary := some "S"
  parameters := none
  requestBody := none
  responses := some [("200", { description := some "OK", content := none, schema := none })]

/-- The end-to-end example document of the specification: OpenAPI 3.0, title
T, version 1, one server /api, one GET /x operation. -/
def exampleDoc : Document where
  swagger := none
  host := none
  basePath := none
  schemes := none
  info := { title := "T", version := "1", description := none }
  servers := some [{ url := "/api", description := none }]
  paths := some [("/x", some [("get", some exampleOp)])]
  definitions := none
  securityDefinitions := none
  components := none
  parameters := none

/-- The composition example schema: allOf of a reference to Bar and an inline
object with properties x and y. -/
def fooSchema : Schema :=
  Schema.mk none
    (some [refSchema "#/components/schemas/Bar",
           objSchema [("x", primSchema "string"), ("y", primSchema "string")]])
    none none none none none none none none

/-- The same composition carried by a oneOf keyword. -/
def fooOneOfSchema : Schema :=
  Schema.mk none none
    (some [refSchema "#/components/schemas/Bar",
           objSchema [("x", primSchema "string"), ("y", primSchema "string")]])
    none none none none none none none

/-- The same composition carried by an anyOf keyword. -/
def fooAnyOfSchema : Schema :=
  Schema.mk none none none
    (some [refSchema "#/components/schemas/Bar",
           objSchema [("x", primSchema "string"), ("y", primSchema "string")]])
    none none none none none none

/-- A Swagger 2.0 document with host api.x.com, basePath /v1 and schemes
[http]. -/
def swagger2Doc : Document where
  swagger := some "2.0"
  host := some "api.x.com"
  basePath := some "/v1"
  schemes := some ["http"]
  info := { title := "T", version := "1", description := none }
  servers := none
  paths := none
  definitions := none
  securityDefinitions := none
  components := none
  parameters := none

/-- The same Swagger 2.0 document with the host present but empty. -/
def swagger2DocEmptyHost : Document :=
  { swagger2Doc with host := some "" }

/-- A document with no paths, no components and no security. -/
def bareDoc : Document where
  swagger := none
  host := none
  basePath := none
  schemes := none
  info := { title := "T", version := "1", description := none }
  servers := none
  paths := none
  definitions := none
  securityDefinitions := none
  components := none
  parameters := none

/-- A parameter entry whose reference cannot be resolved in `bareDoc`. -/
def danglingParam : Param where
  ref := some "#/components/parameters/missing"
  name := none
  inLoc := none
  required := false
  schema := none
  type := none
  enum := none
  description := none

/-- A parameter with no name, no location, no schema and no type. -/
def nakedParam : Param where
  ref := none
  name := none
  inLoc := none
  required := false
  schema := none
  type := none
  enum := none
  description := none

/-- A parameter entry that is a bare reference to the component parameter
named pid. -/
def resolvableParam : Param where
  ref := some "#/components/parameters/pid"
  name := none
  inLoc := none
  required := false
  schema := none
  type := none
  enum := none
  description := none

/-- A concrete component parameter named pid in query. -/
def namedParam : Param where
  ref := none
  name := some "pid"
  inLoc := some "query"
  required := true
  schema := none
  type := some "integer"
  enum := none
  description := some "an id"

/-- A document whose components carry the single parameter pid. -/
def docWithParam : Document where
  swagger := none
  host := none
  basePath := none
  schemes := none
  info := { title := "T", version := "1", description := none }
  servers := none
  paths := none
  definitions := none
  securityDefinitions := none
  components := some ⟨none, none, some [("pid", namedParam)]⟩
  parameters := none

/-! Characterisation of the trailing segment produced by split and pop. -/

/-- The worker of splitSlash always ends in the segment collected after the
last slash, stated through a left fold that restarts at every slash. -/
lemma splitSlashAux_getLast? : ∀ (cs : List Char) (acc : List Char),
    (splitSlashAux cs acc).getLast? =
      some (String.mk (cs.foldl (fun a c => if c = '/' then [] else a ++ [c]) acc.reverse)) := by
  intro cs
  induction cs with
  | nil => intro acc; rfl
  | cons c rest ih =>
    intro acc
    by_cases hc : c = '/'
    · subst hc
      have h1 := ih []
      rw [splitSlashAux, if_pos rfl]
      rcases hsp : splitSlashAux rest [] with _ | ⟨x, xs⟩
      · rw [hsp] at h1; simp at h1
      · rw [hsp] at h1
        rw [List.getLast?_cons_cons, h1]
        simp
    · have h1 := ih (c :: acc)
      rw [splitSlashAux, if_neg hc, h1]
      simp [hc]

/-- The code expression split-then-pop equals the substring after the last
slash. -/
lemma lastSegment_eq_afterLastSlash (r : String) : lastSegment r = afterLastSlash r := by
  unfold lastSegment splitSlash afterLastSlash
  rw [List.getLastD_eq_getLast?, splitSlashAux_getLast? r.data []]
  rfl

/-- C2 counterexample: the claimed prefix with two trailing newlines is not a
prefix of the rendered output of the end-to-end example document (the output
carries a single trailing newline after the 200 line). -/
theorem c2_double_newline_not_prefix :
    ("API: T v1\n\nBase URL: /api\n\nENDPOINTS:\n\nGET /x\n  Summary: S\n  Responses:\n    200: OK\n\n".data.isPrefixOf
      (openApiToLlmText exampleDoc).data) = false := by
  decide

/-- C2 (amended): the end-to-end example document renders to exactly the
claimed text with a single trailing newline after the 200 line (so the output
begins with that string). -/
theorem c2_end_to_end_render :
    openApiToLlmText exampleDoc =
      "API: T v1\n\nBase URL: /api\n\nENDPOINTS:\n\nGET /x\n  Summary: S\n  Responses:\n    200: OK\n" := by
  decide

/-- C8: conversion is deterministic; the embedding is a pure function of the
document (the source creates its virtual-schema registry afresh inside each
call, so no state survives between calls), hence repeated renderings of the
same document are identical. -/
theorem c8_render_deterministic : ∀ doc : Document, openApiToLlmText doc = openApiToLlmText doc :=
  fun _ => rfl

/-- C3 counterexample: for a reference string ending in a slash the renderer
does not return the (empty) substring after the last slash; it returns the
per-context unknown placeholder, which moreover differs between contexts. -/
theorem c3_trailing_slash_returns_unknown :
    resolveSchemaType (some (refSchema "#/components/schemas/")) ⟨.response, none, none, none⟩ = "Unknown" ∧
    resolveSchemaType (some (refSchema "#/components/schemas/")) ⟨.parameter, none, none, none⟩ = "unknown" ∧
    ("Unknown" : String) ≠ "" := by
  decide

/-- C3 (amended): for every schema node carrying a $ref, in every render
context and whatever its other fields hold, resolveSchemaType returns the
substring of the reference after its last slash when that substring is
non-empty, and the context's unknown placeholder when it is empty; the
referenced target is never inspected. -/
theorem c3_reference_trailing_segment :
    ∀ (s : Schema) (r : String) (opts : ResolveSchemaTypeOptions), s.ref = some r →
      resolveSchemaType (some s) opts =
        (if afterLastSlash r = "" then unknownValue opts.context else afterLastSlash r) := by
  intro s r opts h
  rcases s with ⟨ref, aO, oO, anO, ty, pr, rq, it, fm, en⟩
  simp only [Schema.ref] at h
  subst h
  show (let seg := lastSegment r; if seg = "" then unknownValue opts.context else seg) = _
  rw [lastSegment_eq_afterLastSlash]

/-- C3 witness: the amended theorem applied to a concrete reference node. -/
theorem c3_reference_trailing_segment_witness :
    resolveSchemaType (some (refSchema "#/components/schemas/Pet")) ⟨.response, none, none, none⟩ =
      (if afterLastSlash "#/components/schemas/Pet" = "" then unknownValue SchemaTypeContext.response
       else afterLastSlash "#/components/schemas/Pet") :=
  c3_reference_trailing_segment (refSchema "#/components/schemas/Pet") "#/components/schemas/Pet"
    ⟨.response, none, none, none⟩ rfl



/-- C4: an object schema with five properties renders in requestBody context
as Object followed by exactly the first three declared property names and a
trailing truncation marker, while in response context (no limit) all five
names appear, in declaration order (never re-sorted). -/
theorem c4_property_truncation :
    ∀ (ps : List (String × Schema)), ps.length = 5 →
      resolveSchemaType (some (objSchema ps)) ⟨.requestBody, none, none, none⟩ =
        "Object (" ++ (jsJoin ", " ((ps.map Prod.fst).take 3) ++ "...") ++ ")" ∧
      resolveSchemaType (some (objSchema ps)) ⟨.response, none, none, none⟩ =
        "Object (" ++ jsJoin ", " (ps.map Prod.fst) ++ ")" := by
  intro ps hlen
  rcases ps with _ | ⟨a, ps⟩
  · simp at hlen
  rcases ps with _ | ⟨b, ps⟩
  · simp at hlen
  rcases ps with _ | ⟨c, ps⟩
  · simp at hlen
  rcases ps with _ | ⟨d, ps⟩
  · simp at hlen
  rcases ps with _ | ⟨e, ps⟩
  · simp at hlen
  have hnil : ps = [] := by
    simp only [List.length_cons] at hlen
    have h0 : ps.length = 0 := by omega
    exact List.length_eq_zero.mp h0
  subst hnil
  exact ⟨rfl, rfl⟩

/-- C4 witness: the truncation theorem applied to a concrete five-property
object schema, showing three names plus the marker versus all five names. -/
theorem c4_property_truncation_witness :
    resolveSchemaType (some (objSchema [("a", primSchema "string"), ("b", primSchema "string"),
        ("c", primSchema "string"), ("d", primSchema "string"), ("e", primSchema "string")]))
        ⟨.requestBody, none, none, none⟩ = "Object (a, b, c...)" ∧
    resolveSchemaType (some (objSchema [("a", primSchema "string"), ("b", primSchema "string"),
        ("c", primSchema "string"), ("d", primSchema "string"), ("e", primSchema "string")]))
        ⟨.response, none, none, none⟩ = "Object (a, b, c, d, e)" :=
  c4_property_truncation [("a", primSchema "string"), ("b", primSchema "string"),
    ("c", primSchema "string"), ("d", primSchema "string"), ("e", primSchema "string")] rfl

/-- C9: a parameter line, whether the parameter is rendered directly or
obtained by resolving a reference, substitutes the literal text undefined for
a missing name field and for a missing location field (each independently,
whatever the other fields hold), renders the type as unknown when both schema
and type are absent, and the parameter is emitted rather than dropped in both
the direct and the reference-resolved case. -/
theorem c9_missing_fields_render_undefined :
    (∀ p : Param, p.name = none →
        paramLine p =
          paramLine ⟨p.ref, some "undefined", p.inLoc, p.required, p.schema, p.type,
            p.enum, p.description⟩) ∧
    (∀ p : Param, p.inLoc = none →
        paramLine p =
          paramLine ⟨p.ref, p.name, some "undefined", p.required, p.schema, p.type,
            p.enum, p.description⟩) ∧
    (∀ p : Param, p.schema = none → p.type = none →
        paramLine p =
          "    - " ++ jsOrStr p.name "undefined" ++ " (" ++ jsOrStr p.inLoc "undefined" ++
            ", " ++ "unknown" ++ " (" ++ (if p.required then "required" else "optional") ++
            ")): " ++ jsOrStr p.description "No description") ∧
    (∀ (doc : Document) (p : Param), p.ref = none →
        formatParameters [p] doc = ["  Parameters:", paramLine p]) ∧
    (∀ (doc : Document) (p : Param) (r : String) (rp : Param),
        p.ref = some r → resolveParameterRef r doc = some rp →
        formatParameters [p] doc = ["  Parameters:", paramLine rp]) := by
  refine ⟨?_, ?_, ?_, ?_, ?_⟩
  · intro p h
    rcases p with ⟨ref, nm, loc, req, sch, ty, en, ds⟩
    simp only [Param.name] at h
    subst h
    rfl
  · intro p h
    rcases p with ⟨ref, nm, loc, req, sch, ty, en, ds⟩
    simp only [Param.inLoc] at h
    subst h
    rfl
  · intro p h1 h2
    rcases p with ⟨ref, nm, loc, req, sch, ty, en, ds⟩
    simp only [Param.schema, Param.type] at h1 h2
    subst h1; subst h2
    rfl
  · intro doc p h
    rcases p with ⟨ref, nm, loc, req, sch, ty, en, ds⟩
    simp only [Param.ref] at h
    subst h
    rfl
  · intro doc p r rp h1 h2
    rcases p with ⟨ref, nm, loc, req, sch, ty, en, ds⟩
    simp only [Param.ref] at h1
    subst h1
    unfold formatParameters
    simp only [List.flatMap_cons, List.flatMap_nil, h2]
    rfl

/-- C9 witness: every clause applied to concrete parameters — the bare
parameter renders the fully substituted line under the heading, and a
reference entry resolving to the component parameter pid renders that
parameter's line. -/
theorem c9_missing_fields_render_undefined_witness :
    paramLine nakedParam =
      paramLine ⟨nakedParam.ref, some "undefined", nakedParam.inLoc, nakedParam.required,
        nakedParam.schema, nakedParam.type, nakedParam.enum, nakedParam.description⟩ ∧
    paramLine nakedParam =
      paramLine ⟨nakedParam.ref, nakedParam.name, some "undefined", nakedParam.required,
        nakedParam.schema, nakedParam.type, nakedParam.enum, nakedParam.description⟩ ∧
    paramLine nakedParam =
      "    - undefined (undefined, unknown (optional)): No description" ∧
    formatParameters [nakedParam] bareDoc = ["  Parameters:", paramLine nakedParam] ∧
    formatParameters [resolvableParam] docWithParam = ["  Parameters:", paramLine namedParam] :=
  ⟨c9_missing_fields_render_undefined.1 nakedParam rfl,
   c9_missing_fields_render_undefined.2.1 nakedParam rfl,
   c9_missing_fields_render_undefined.2.2.1 nakedParam rfl rfl,
   c9_missing_fields_render_undefined.2.2.2.1 bareDoc nakedParam rfl,
   c9_missing_fields_render_undefined.2.2.2.2 docWithParam resolvableParam
     "#/components/parameters/pid" namedParam rfl rfl⟩

/-- C6: a parameter entry whose reference does not resolve in the
version-appropriate collection is dropped silently, contributing no output
line, and when every parameter of an operation is dropped the Parameters
heading itself is omitted. -/
theorem c6_unresolvable_param_dropped :
    (∀ (doc : Document) (xs ys : List Param) (e : Param) (r : String),
        e.ref = some r → resolveParameterRef r doc = none →
        formatParameters (xs ++ e :: ys) doc = formatParameters (xs ++ ys) doc) ∧
    (∀ (doc : Document) (ps : List Param),
        (∀ p ∈ ps, ∃ r, p.ref = some r ∧ resolveParameterRef r doc = none) →
        formatParameters ps doc = []) := by
  constructor
  · intro doc xs ys e r h1 h2
    unfold formatParameters
    simp only [List.flatMap_append, List.flatMap_cons, h1, h2]
    simp
  · intro doc ps h
    unfold formatParameters
    have hnil : (ps.flatMap (fun p =>
        match p.ref with
        | some r =>
          match resolveParameterRef r doc with
          | none => []
          | some rp => [paramLine rp]
        | none => [paramLine p])) = [] := by
      rw [List.flatMap_eq_nil_iff]
      intro p hp
      obtain ⟨r, hr1, hr2⟩ := h p hp
      simp [hr1, hr2]
    rw [hnil]
    rfl

/-- C6 witness: in a document with no components, a parameter referring to a
missing component parameter is dropped and the heading is omitted. -/
theorem c6_unresolvable_param_dropped_witness :
    formatParameters [danglingParam] bareDoc = formatParameters [] bareDoc ∧
    formatParameters [danglingParam] bareDoc = [] :=
  ⟨c6_unresolvable_param_dropped.1 bareDoc [] [] danglingParam
      "#/components/parameters/missing" rfl rfl,
    c6_unresolvable_param_dropped.2 bareDoc [danglingParam]
      (fun p hp => by
        rcases List.mem_singleton.mp hp with rfl
        exact ⟨"#/components/parameters/missing", rfl, rfl⟩)⟩

/-- C7 counterexample: a Swagger 2.0 document whose host field is present but
empty renders no Base URL line at all, although the claim (host present,
basePath present) asserts the header contains one. -/
theorem c7_empty_host_no_base_url :
    openApiToLlmTextSections swagger2DocEmptyHost = ["API: T v1", "\nENDPOINTS:\n"] ∧
    "\nBase URL: http:///v1" ∉ openApiToLlmTextSections swagger2DocEmptyHost := by
  decide

/-- C7 (amended): for every document whose swagger field equals 2.0 and whose
host and basePath are present and non-empty, the header contains the Base URL
line built from scheme, host and basePath, where the scheme is the first
entry of schemes and falls back to https when schemes is absent or empty or
its first entry is empty. -/
theorem c7_swagger2_base_url :
    ∀ (doc : Document) (h b : String),
      doc.swagger = some "2.0" → doc.host = some h → h ≠ "" →
      doc.basePath = some b → b ≠ "" →
      ("\nBase URL: " ++ jsOrStr (doc.schemes.bind List.head?) "https" ++ "://" ++ h ++ b)
        ∈ openApiToLlmTextSections doc := by
  intro doc h b hs hh hhne hb hbne
  unfold openApiToLlmTextSections
  have hsw : isSwagger2 doc = true := by simp [isSwagger2, hs]
  rw [if_pos hsw]
  rw [hh, hb]
  simp only [truthyStr, if_neg hhne, if_neg hbne]
  unfold formatHeader
  simp [List.mem_append, String.append_assoc]

/-- C7 witness: scheme http, host api.x.com and basePath /v1 yield the Base
URL http://api.x.com/v1. -/
theorem c7_swagger2_base_url_witness :
    "\nBase URL: http://api.x.com/v1" ∈ openApiToLlmTextSections swagger2Doc :=
  c7_swagger2_base_url swagger2Doc "api.x.com" "/v1" rfl rfl (by decide) rfl (by decide)


/-- The inline-object test applied to a composition branch by formatSchema:
no truthy $ref, type object, properties present. -/
def isInlineObjectBranch (b : Schema) : Bool :=
  (truthyStr b.ref).isNone && (decide (b.type = some "object") && b.properties.isSome)


/-- The composition-branch walk registers exactly the inline object branches,
in order, under ordinals counted from the start value. -/
lemma compBranchesAux_registry (p : String) :
    ∀ (bs : List Schema) (k : Nat),
      ((compBranchesAux p k bs).2.map Prod.fst =
        (List.range (bs.filter isInlineObjectBranch).length).map
          (fun i => "<" ++ p ++ "__inline__" ++ toString (i + k) ++ ">")) ∧
      ((compBranchesAux p k bs).2.map Prod.snd = bs.filter isInlineObjectBranch) := by
  intro bs
  induction bs with
  | nil => intro k; exact ⟨rfl, rfl⟩
  | cons b rest ih =>
    intro k
    rcases htr : truthyStr b.ref with _ | r
    · by_cases hobj : b.type = some "object" ∧ b.properties.isSome
      · have hfil : isInlineObjectBranch b = true := by
          simp [isInlineObjectBranch, htr, hobj.1, hobj.2]
        have hadd : ∀ i : Nat, i + 1 + k = i + (k + 1) := by omega
        have hrw : List.filter isInlineObjectBranch (b :: rest) =
            b :: List.filter isInlineObjectBranch rest := by
          simp [List.filter_cons, hfil]
        constructor
        · simp only [compBranchesAux, htr, if_pos hobj, hrw, List.length_cons,
            List.range_succ_eq_map, List.map_cons, List.map_map, List.cons.injEq,
            Nat.zero_add]
          refine ⟨trivial, ?_⟩
          rw [(ih (k + 1)).1]
          simp [Function.comp, Nat.succ_eq_add_one, hadd]
        · simp only [compBranchesAux, htr, if_pos hobj, hrw, List.map_cons,
            List.cons.injEq]
          exact ⟨trivial, (ih (k + 1)).2⟩
      · have hfil : isInlineObjectBranch b = false := by
          simp only [isInlineObjectBranch, htr, Option.isNone_none, Bool.true_and]
          rcases Decidable.not_and_iff_or_not.mp hobj with h1 | h1 <;> simp [h1]
        have hrw : List.filter isInlineObjectBranch (b :: rest) =
            List.filter isInlineObjectBranch rest := by
          simp [List.filter_cons, hfil]
        constructor
        · simp only [compBranchesAux, htr, if_neg hobj, hrw]
          exact (ih k).1
        · simp only [compBranchesAux, htr, if_neg hobj, hrw]
          exact (ih k).2
    · have hfil : isInlineObjectBranch b = false := by
        simp [isInlineObjectBranch, htr]
      have hrw : List.filter isInlineObjectBranch (b :: rest) =
          List.filter isInlineObjectBranch rest := by
        simp [List.filter_cons, hfil]
      constructor
      · simp only [compBranchesAux, htr, hrw]
        exact (ih k).1
      · simp only [compBranchesAux, htr, hrw]
        exact (ih k).2

/-- Every name registered by the composition-branch walk is shown in the
branch-name list it returns. -/
lemma compBranchesAux_name_mem (p : String) :
    ∀ (bs : List Schema) (k : Nat) (v : String × Schema),
      v ∈ (compBranchesAux p k bs).2 → v.1 ∈ (compBranchesAux p k bs).1 := by
  intro bs
  induction bs with
  | nil =>
    intro k v hv
    simp [compBranchesAux] at hv
  | cons b rest ih =>
    intro k v hv
    rcases htr : truthyStr b.ref with _ | r
    · by_cases hobj : b.type = some "object" ∧ b.properties.isSome
      · simp only [compBranchesAux, htr, if_pos hobj] at hv ⊢
        rcases List.mem_cons.mp hv with he | hv2
        · subst he
          exact List.mem_cons_self _ _
        · exact List.mem_cons_of_mem _ (ih (k + 1) v hv2)
      · simp only [compBranchesAux, htr, if_neg hobj] at hv ⊢
        exact List.mem_cons_of_mem _ (ih k v hv)
    · simp only [compBranchesAux, htr] at hv ⊢
      exact List.mem_cons_of_mem _ (ih k v hv)

/-- C1 counterexample: for the Foo example the registered virtual schema is
named with literal angle brackets around the whole name, so no virtual schema
named Foo__inline__1 (without brackets) exists and no block for that bare
name is emitted. -/
theorem c1_virtual_name_counterexample :
    (formatSchema fooSchema "  " (some "Foo")).2.2.map Prod.fst = ["<Foo__inline__1>"] ∧
    "Foo__inline__1" ∉ (formatSchema fooSchema "  " (some "Foo")).2.2.map Prod.fst ∧
    "Foo__inline__1: object" ∉ formatSchemas [("Foo", fooSchema)] := by
  decide

/-- C1 (amended): for every top-level schema rendered in the schema listing
whose composition keyword (allOf, or oneOf when allOf is absent, or anyOf
when both are absent) is present, the pass registers exactly the inline
object branches as virtual schemas, in branch order, named by wrapping
parent__inline__ordinal in literal angle brackets with the ordinal starting
at 1 and incrementing per registered branch; the type summary is that kind's
branch list and every registered virtual name appears in it; for every
position of a named schema in the schema table, its block followed
immediately by its virtual-schema blocks occurs contiguously in the
formatSchemas output; and the Foo example produces exactly one virtual
schema, named in angle brackets, whose block (properties x and y) follows
the parent block. -/
theorem c1_inline_virtual_schemas :
    (∀ (pn ind : String) (s : Schema) (bs : List Schema),
        s.allOf = some bs →
        (formatSchema s ind (some pn)).2.2.map Prod.fst =
            (List.range (bs.filter isInlineObjectBranch).length).map
              (fun i => "<" ++ pn ++ "__inline__" ++ toString (i + 1) ++ ">") ∧
          (formatSchema s ind (some pn)).2.2.map Prod.snd = bs.filter isInlineObjectBranch ∧
          (formatSchema s ind (some pn)).1 =
            "allOf [" ++ jsJoin ", " (compBranchesAux pn 1 bs).1 ++ "]" ∧
          ∀ v ∈ (formatSchema s ind (some pn)).2.2, v.1 ∈ (compBranchesAux pn 1 bs).1) ∧
    (∀ (pn ind : String) (s : Schema) (bs : List Schema),
        s.allOf = none → s.oneOf = some bs →
        (formatSchema s ind (some pn)).2.2.map Prod.fst =
            (List.range (bs.filter isInlineObjectBranch).length).map
              (fun i => "<" ++ pn ++ "__inline__" ++ toString (i + 1) ++ ">") ∧
          (formatSchema s ind (some pn)).2.2.map Prod.snd = bs.filter isInlineObjectBranch ∧
          (formatSchema s ind (some pn)).1 =
            "oneOf [" ++ jsJoin ", " (compBranchesAux pn 1 bs).1 ++ "]" ∧
          ∀ v ∈ (formatSchema s ind (some pn)).2.2, v.1 ∈ (compBranchesAux pn 1 bs).1) ∧
    (∀ (pn ind : String) (s : Schema) (bs : List Schema),
        s.allOf = none → s.oneOf = none → s.anyOf = some bs →
        (formatSchema s ind (some pn)).2.2.map Prod.fst =
            (List.range (bs.filter isInlineObjectBranch).length).map
              (fun i => "<" ++ pn ++ "__inline__" ++ toString (i + 1) ++ ">") ∧
          (formatSchema s ind (some pn)).2.2.map Prod.snd = bs.filter isInlineObjectBranch ∧
          (formatSchema s ind (some pn)).1 =
            "anyOf [" ++ jsJoin ", " (compBranchesAux pn 1 bs).1 ++ "]" ∧
          ∀ v ∈ (formatSchema s ind (some pn)).2.2, v.1 ∈ (compBranchesAux pn 1 bs).1) ∧
    (∀ (pre post : List (String × Schema)) (n : String) (s : Schema),
        List.IsInfix
          (([n ++ ": " ++ (formatSchema s "  " (some n)).1] ++
              (formatSchema s "  " (some n)).2.1 ++ [""]) ++
            (formatSchema s "  " (some n)).2.2.flatMap (fun v =>
              [v.1 ++ ": " ++ (formatSchema v.2 "  " (some v.1)).1] ++
                (formatSchema v.2 "  " (some v.1)).2.1 ++ [""]))
          (formatSchemas (pre ++ (n, s) :: post))) ∧
    formatSchemas [("Foo", fooSchema)] =
      ["SCHEMAS:", "> * = required\n",
       "Foo: allOf [Bar, <Foo__inline__1>]", "",
       "<Foo__inline__1>: object", "  - x: string", "  - y: string", ""] := by
  refine ⟨?_, ?_, ?_, ?_, ?_⟩
  · intro pn ind s bs h
    rcases s with ⟨ref, aO, oO, anO, ty, pr, rq, it, fm, en⟩
    simp only [Schema.allOf] at h
    subst h
    unfold formatSchema
    simp only [Schema.allOf]
    have hr := compBranchesAux_registry (optToStr (some pn)) bs 1
    refine ⟨?_, ?_, rfl, ?_⟩
    · simpa [optToStr] using hr.1
    · simpa [optToStr] using hr.2
    · exact fun v hv => compBranchesAux_name_mem pn bs 1 v hv
  · intro pn ind s bs h1 h2
    rcases s with ⟨ref, aO, oO, anO, ty, pr, rq, it, fm, en⟩
    simp only [Schema.allOf, Schema.oneOf] at h1 h2
    subst h1
    subst h2
    unfold formatSchema
    simp only [Schema.allOf, Schema.oneOf]
    have hr := compBranchesAux_registry (optToStr (some pn)) bs 1
    refine ⟨?_, ?_, rfl, ?_⟩
    · simpa [optToStr] using hr.1
    · simpa [optToStr] using hr.2
    · exact fun v hv => compBranchesAux_name_mem pn bs 1 v hv
  · intro pn ind s bs h1 h2 h3
    rcases s with ⟨ref, aO, oO, anO, ty, pr, rq, it, fm, en⟩
    simp only [Schema.allOf, Schema.oneOf, Schema.anyOf] at h1 h2 h3
    subst h1
    subst h2
    subst h3
    unfold formatSchema
    simp only [Schema.allOf, Schema.oneOf, Schema.anyOf]
    have hr := compBranchesAux_registry (optToStr (some pn)) bs 1
    refine ⟨?_, ?_, rfl, ?_⟩
    · simpa [optToStr] using hr.1
    · simpa [optToStr] using hr.2
    · exact fun v hv => compBranchesAux_name_mem pn bs 1 v hv
  · intro pre post n s
    unfold formatSchemas
    rw [List.flatMap_append, List.flatMap_cons]
    refine ⟨["SCHEMAS:", "> * = required\n"] ++ pre.flatMap (fun e =>
        let r := formatSchema e.2 "  " (some e.1)
        ([e.1 ++ ": " ++ r.1] ++ r.2.1 ++ [""]) ++ r.2.2.flatMap (fun v =>
          let vr := formatSchema v.2 "  " (some v.1)
          [v.1 ++ ": " ++ vr.1] ++ vr.2.1 ++ [""])),
      post.flatMap (fun e =>
        let r := formatSchema e.2 "  " (some e.1)
        ([e.1 ++ ": " ++ r.1] ++ r.2.1 ++ [""]) ++ r.2.2.flatMap (fun v =>
          let vr := formatSchema v.2 "  " (some v.1)
          [v.1 ++ ": " ++ vr.1] ++ vr.2.1 ++ [""])), ?_⟩
    simp [List.append_assoc]
  · decide

/-- C1 witness: the three composition clauses applied to the concrete Foo
compositions and the emission clause applied to a singleton schema table. -/
theorem c1_inline_virtual_schemas_witness :
    ((formatSchema fooSchema "  " (some "Foo")).2.2.map Prod.fst =
        (List.range (([refSchema "#/components/schemas/Bar",
            objSchema [("x", primSchema "string"), ("y", primSchema "string")]].filter
              isInlineObjectBranch).length)).map
          (fun i => "<" ++ "Foo" ++ "__inline__" ++ toString (i + 1) ++ ">") ∧
      (formatSchema fooSchema "  " (some "Foo")).2.2.map Prod.snd =
        [refSchema "#/components/schemas/Bar",
          objSchema [("x", primSchema "string"), ("y", primSchema "string")]].filter
            isInlineObjectBranch ∧
      (formatSchema fooSchema "  " (some "Foo")).1 =
        "allOf [" ++ jsJoin ", " (compBranchesAux "Foo" 1
          [refSchema "#/components/schemas/Bar",
            objSchema [("x", primSchema "string"), ("y", primSchema "string")]]).1 ++ "]" ∧
      ∀ v ∈ (formatSchema fooSchema "  " (some "Foo")).2.2,
        v.1 ∈ (compBranchesAux "Foo" 1
          [refSchema "#/components/schemas/Bar",
            objSchema [("x", primSchema "string"), ("y", primSchema "string")]]).1) ∧
    (formatSchema fooOneOfSchema "  " (some "Foo")).1 =
      "oneOf [" ++ jsJoin ", " (compBranchesAux "Foo" 1
        [refSchema "#/components/schemas/Bar",
          objSchema [("x", primSchema "string"), ("y", primSchema "string")]]).1 ++ "]" ∧
    (formatSchema fooAnyOfSchema "  " (some "Foo")).1 =
      "anyOf [" ++ jsJoin ", " (compBranchesAux "Foo" 1
        [refSchema "#/components/schemas/Bar",
          objSchema [("x", primSchema "string"), ("y", primSchema "string")]]).1 ++ "]" ∧
    List.IsInfix
      ((["Foo" ++ ": " ++ (formatSchema fooSchema "  " (some "Foo")).1] ++
          (formatSchema fooSchema "  " (some "Foo")).2.1 ++ [""]) ++
        (formatSchema fooSchema "  " (some "Foo")).2.2.flatMap (fun v =>
          [v.1 ++ ": " ++ (formatSchema v.2 "  " (some v.1)).1] ++
            (formatSchema v.2 "  " (some v.1)).2.1 ++ [""]))
      (formatSchemas ([] ++ ("Foo", fooSchema) :: [])) :=
  ⟨c1_inline_virtual_schemas.1 "Foo" "  " fooSchema
      [refSchema "#/components/schemas/Bar",
        objSchema [("x", primSchema "string"), ("y", primSchema "string")]] rfl,
   (c1_inline_virtual_schemas.2.1 "Foo" "  " fooOneOfSchema
      [refSchema "#/components/schemas/Bar",
        objSchema [("x", primSchema "string"), ("y", primSchema "string")]] rfl rfl).2.2.1,
   (c1_inline_virtual_schemas.2.2.1 "Foo" "  " fooAnyOfSchema
      [refSchema "#/components/schemas/Bar",
        objSchema [("x", primSchema "string"), ("y", primSchema "string")]] rfl rfl rfl).2.2.1,
   c1_inline_virtual_schemas.2.2.2.1 [] [] "Foo" fooSchema⟩

/-- C5 counterexample: a property that is a single-branch allOf whose branch
carries an empty $ref string renders as the literal inline, not as the
(empty) trailing name of that reference. -/
theorem c5_empty_ref_single_branch :
    propTypeStr (Schema.mk none (some [refSchema ""]) none none none none none none none none) =
      "inline" ∧
    ("inline" : String) ≠ "" := by
  decide

/-- C5 (amended): in the schema-listing property renderer, a property carrying
a $ref renders as the literal object; a single-branch allOf/oneOf/anyOf whose
branch carries a non-empty $ref renders that reference trailing name directly;
a composition with two or more branches renders kind [branch list] where each
branch shows its reference trailing name, its declared type, or inline. -/
theorem c5_property_ref_rendering :
    (∀ (p : Schema) (r : String), p.ref = some r → propTypeStr p = "object") ∧
    (∀ (p b : Schema) (r : String),
        p.ref = none → p.allOf = some [b] → b.ref = some r → r ≠ "" →
        propTypeStr p = lastSegment r) ∧
    (∀ (p b : Schema) (r : String),
        p.ref = none → p.allOf = none → p.oneOf = some [b] → b.ref = some r → r ≠ "" →
        propTypeStr p = lastSegment r) ∧
    (∀ (p b : Schema) (r : String),
        p.ref = none → p.allOf = none → p.oneOf = none → p.anyOf = some [b] →
        b.ref = some r → r ≠ "" →
        propTypeStr p = lastSegment r) ∧
    (∀ (p : Schema) (bs : List Schema),
        p.ref = none → p.allOf = some bs → 2 ≤ bs.length →
        propTypeStr p = "allOf [" ++ jsJoin ", " (bs.map propBranchStr) ++ "]") ∧
    (∀ (p : Schema) (bs : List Schema),
        p.ref = none → p.allOf = none → p.oneOf = some bs → 2 ≤ bs.length →
        propTypeStr p = "oneOf [" ++ jsJoin ", " (bs.map propBranchStr) ++ "]") ∧
    (∀ (p : Schema) (bs : List Schema),
        p.ref = none → p.allOf = none → p.oneOf = none → p.anyOf = some bs → 2 ≤ bs.length →
        propTypeStr p = "anyOf [" ++ jsJoin ", " (bs.map propBranchStr) ++ "]") := by
  refine ⟨?_, ?_, ?_, ?_, ?_, ?_, ?_⟩
  · intro p r h
    rcases p with ⟨ref, aO, oO, anO, ty, pr, rq, it, fm, en⟩
    simp only [Schema.ref] at h
    subst h
    rfl
  · intro p b r h1 h2 hbr hrne
    rcases p with ⟨ref, aO, oO, anO, ty, pr, rq, it, fm, en⟩
    simp only [Schema.ref, Schema.allOf] at h1 h2
    subst h1; subst h2
    rcases b with ⟨bref, baO, boO, banO, bty, bpr, brq, bit, bfm, ben⟩
    simp only [Schema.ref] at hbr
    subst hbr
    simp [propTypeStr, Schema.ref, Schema.allOf, propBranchStr, truthyStr, hrne]
  · intro p b r h1 h2 h3 hbr hrne
    rcases p with ⟨ref, aO, oO, anO, ty, pr, rq, it, fm, en⟩
    simp only [Schema.ref, Schema.allOf, Schema.oneOf] at h1 h2 h3
    subst h1; subst h2; subst h3
    rcases b with ⟨bref, baO, boO, banO, bty, bpr, brq, bit, bfm, ben⟩
    simp only [Schema.ref] at hbr
    subst hbr
    simp [propTypeStr, Schema.ref, Schema.allOf, Schema.oneOf, propBranchStr, truthyStr, hrne]
  · intro p b r h1 h2 h3 h4 hbr hrne
    rcases p with ⟨ref, aO, oO, anO, ty, pr, rq, it, fm, en⟩
    simp only [Schema.ref, Schema.allOf, Schema.oneOf, Schema.anyOf] at h1 h2 h3 h4
    subst h1; subst h2; subst h3; subst h4
    rcases b with ⟨bref, baO, boO, banO, bty, bpr, brq, bit, bfm, ben⟩
    simp only [Schema.ref] at hbr
    subst hbr
    simp [propTypeStr, Schema.ref, Schema.allOf, Schema.oneOf, Schema.anyOf, propBranchStr,
      truthyStr, hrne]
  · intro p bs h1 h2 hlen
    rcases p with ⟨ref, aO, oO, anO, ty, pr, rq, it, fm, en⟩
    simp only [Schema.ref, Schema.allOf] at h1 h2
    subst h1; subst h2
    rcases bs with _ | ⟨x, _ | ⟨y, t⟩⟩
    · simp at hlen
    · simp at hlen
    · rfl
  · intro p bs h1 h2 h3 hlen
    rcases p with ⟨ref, aO, oO, anO, ty, pr, rq, it, fm, en⟩
    simp only [Schema.ref, Schema.allOf, Schema.oneOf] at h1 h2 h3
    subst h1; subst h2; subst h3
    rcases bs with _ | ⟨x, _ | ⟨y, t⟩⟩
    · simp at hlen
    · simp at hlen
    · rfl
  · intro p bs h1 h2 h3 h4 hlen
    rcases p with ⟨ref, aO, oO, anO, ty, pr, rq, it, fm, en⟩
    simp only [Schema.ref, Schema.allOf, Schema.oneOf, Schema.anyOf] at h1 h2 h3 h4
    subst h1; subst h2; subst h3; subst h4
    rcases bs with _ | ⟨x, _ | ⟨y, t⟩⟩
    · simp at hlen
    · simp at hlen
    · rfl

/-- C5 witness: each clause of the amended theorem applied to a concrete
property schema. -/
theorem c5_property_ref_rendering_witness :
    propTypeStr (refSchema "#/c/Bar") = "object" ∧
    propTypeStr (Schema.mk none (some [refSchema "#/c/Bar"]) none none none none none none
        none none) = lastSegment "#/c/Bar" ∧
    propTypeStr (Schema.mk none none (some [refSchema "#/c/Bar"]) none none none none none
        none none) = lastSegment "#/c/Bar" ∧
    propTypeStr (Schema.mk none none none (some [refSchema "#/c/Bar"]) none none none none
        none none) = lastSegment "#/c/Bar" ∧
    propTypeStr (Schema.mk none (some [refSchema "#/c/Bar", primSchema "integer"]) none none
        none none none none none none) =
      "allOf [" ++ jsJoin ", " ([refSchema "#/c/Bar", primSchema "integer"].map propBranchStr) ++ "]" ∧
    propTypeStr (Schema.mk none none (some [refSchema "#/c/Bar", primSchema "integer"]) none
        none none none none none none) =
      "oneOf [" ++ jsJoin ", " ([refSchema "#/c/Bar", primSchema "integer"].map propBranchStr) ++ "]" ∧
    propTypeStr (Schema.mk none none none (some [refSchema "#/c/Bar", primSchema "integer"])
        none none none none none none) =
      "anyOf [" ++ jsJoin ", " ([refSchema "#/c/Bar", primSchema "integer"].map propBranchStr) ++ "]" :=
  ⟨c5_property_ref_rendering.1 (refSchema "#/c/Bar") "#/c/Bar" rfl,
   c5_property_ref_rendering.2.1 _ (refSchema "#/c/Bar") "#/c/Bar" rfl rfl rfl (by decide),
   c5_property_ref_rendering.2.2.1 _ (refSchema "#/c/Bar") "#/c/Bar" rfl rfl rfl rfl (by decide),
   c5_property_ref_rendering.2.2.2.1 _ (refSchema "#/c/Bar") "#/c/Bar" rfl rfl rfl rfl rfl
     (by decide),
   c5_property_ref_rendering.2.2.2.2.1 _ [refSchema "#/c/Bar", primSchema "integer"] rfl rfl
     (by decide),
   c5_property_ref_rendering.2.2.2.2.2.1 _ [refSchema "#/c/Bar", primSchema "integer"] rfl rfl
     rfl (by decide),
   c5_property_ref_rendering.2.2.2.2.2.2 _ [refSchema "#/c/Bar", primSchema "integer"] rfl rfl
     rfl rfl (by decide)⟩

/-- The section pushed once by formatEndpoints as the ENDPOINTS heading. -/
def endpointsHeading : String := "\nENDPOINTS:\n"

/-- The heading contains no space, so any string containing one differs. -/
lemma ne_heading_of_space (s : String) (h : ' ' ∈ s.data) : s ≠ endpointsHeading := by
  intro he
  rw [he] at h
  revert h
  decide

lemma sp_append_left (a b : String) (h : ' ' ∈ a.data) : ' ' ∈ (a ++ b).data := by
  rw [String.data_append]
  exact List.mem_append_left _ h

lemma sp_append_right (a b : String) (h : ' ' ∈ b.data) : ' ' ∈ (a ++ b).data := by
  rw [String.data_append]
  exact List.mem_append_right _ h

/-- Every parameter line contains a space. -/
lemma sp_paramLine (p : Param) : ' ' ∈ (paramLine p).data := by
  unfold paramLine
  exact sp_append_left _ _ (sp_append_left _ _ (sp_append_left _ _ (sp_append_left _ _
    (sp_append_left _ _ (sp_append_left _ _ (sp_append_left _ _ (sp_append_left _ _
      (sp_append_left _ _ (by decide)))))))))

/-- The responses block never contains the ENDPOINTS heading. -/
lemma heading_not_mem_formatResponses (rs : List (String × Response)) :
    endpointsHeading ∉ formatResponses rs := by
  intro hm
  unfold formatResponses at hm
  rcases List.mem_cons.mp hm with he | hm2
  · exact absurd he (by decide)
  · rw [List.mem_flatMap] at hm2
    obtain ⟨e, _, hm3⟩ := hm2
    rcases List.mem_cons.mp hm3 with he | hm4
    · exact ne_heading_of_space _
        (sp_append_left _ _ (sp_append_left _ _ (sp_append_left _ _ (by decide)))) he.symm
    · rcases hc : e.2.content with _ | cs
      · simp only [hc] at hm4
        rcases hs : e.2.schema with _ | sch
        · simp only [hs] at hm4
          simp at hm4
        · simp only [hs] at hm4
          exact ne_heading_of_space _ (sp_append_left _ _ (by decide))
            (List.mem_singleton.mp hm4).symm
      · simp only [hc] at hm4
        rw [List.mem_flatMap] at hm4
        obtain ⟨m, _, hm5⟩ := hm4
        rcases List.mem_cons.mp hm5 with he | hm6
        · exact ne_heading_of_space _ (sp_append_left _ _ (by decide)) he.symm
        · rcases List.mem_cons.mp hm6 with he | hm7
          · exact ne_heading_of_space _ (sp_append_left _ _ (by decide)) he.symm
          · simp at hm7

/-- The request-body block never contains the ENDPOINTS heading. -/
lemma heading_not_mem_formatRequestBody (rb : RequestBody) :
    endpointsHeading ∉ formatRequestBody rb := by
  intro hm
  unfold formatRequestBody at hm
  rcases List.mem_cons.mp hm with he | hm2
  · exact absurd he (by decide)
  · rcases hc : rb.content with _ | cs
    · simp only [hc] at hm2
      simp at hm2
    · simp only [hc] at hm2
      rw [List.mem_flatMap] at hm2
      obtain ⟨m, _, hm3⟩ := hm2
      rcases List.mem_cons.mp hm3 with he | hm4
      · exact ne_heading_of_space _ (sp_append_left _ _ (by decide)) he.symm
      · rcases List.mem_cons.mp hm4 with he | hm5
        · exact ne_heading_of_space _ (sp_append_left _ _ (by decide)) he.symm
        · simp at hm5

/-- The parameters block never contains the ENDPOINTS heading. -/
lemma heading_not_mem_formatParameters (ps : List Param) (doc : Document) :
    endpointsHeading ∉ formatParameters ps doc := by
  intro hm
  unfold formatParameters at hm
  set lines := ps.flatMap (fun p =>
    match p.ref with
    | some r =>
      match resolveParameterRef r doc with
      | none => []
      | some rp => [paramLine rp]
    | none => [paramLine p]) with hl
  by_cases hnil : lines = []
  · rw [if_pos hnil] at hm
    simp at hm
  · rw [if_neg hnil] at hm
    rcases List.mem_cons.mp hm with he | hm2
    · exact absurd he (by decide)
    · rw [hl, List.mem_flatMap] at hm2
      obtain ⟨p, _, hm3⟩ := hm2
      rcases hr : p.ref with _ | r
      · simp only [hr] at hm3
        exact ne_heading_of_space _ (sp_paramLine p) (List.mem_singleton.mp hm3).symm
      · simp only [hr] at hm3
        rcases hrp : resolveParameterRef r doc with _ | rp
        · simp only [hrp] at hm3
          simp at hm3
        · simp only [hrp] at hm3
          exact ne_heading_of_space _ (sp_paramLine rp) (List.mem_singleton.mp hm3).symm

/-- An operation block never contains the ENDPOINTS heading. -/
lemma heading_not_mem_formatOperation (m pth : String) (op : Operation) (doc : Document) :
    endpointsHeading ∉ formatOperation m pth op doc := by
  intro hm
  unfold formatOperation at hm
  rcases List.mem_append.mp hm with h5 | h6
  · rcases List.mem_append.mp h5 with h4 | hresp
    · rcases List.mem_append.mp h4 with h3 | hrb
      · rcases List.mem_append.mp h3 with h2 | hpar
        · rcases List.mem_append.mp h2 with h1 | hsum
          · exact ne_heading_of_space _ (sp_append_left _ _ (sp_append_right _ _ (by decide)))
              (List.mem_singleton.mp h1).symm
          · rcases hs : truthyStr op.summary with _ | sm
            · simp only [hs] at hsum
              simp at hsum
            · simp only [hs] at hsum
              exact ne_heading_of_space _ (sp_append_left _ _ (by decide))
                (List.mem_singleton.mp hsum).symm
        · rcases hp : op.parameters with _ | ps
          · simp only [hp] at hpar
            simp at hpar
          · simp only [hp] at hpar
            by_cases hl : ps.length > 0
            · rw [if_pos hl] at hpar
              exact heading_not_mem_formatParameters ps doc hpar
            · rw [if_neg hl] at hpar
              simp at hpar
      · rcases hb : op.requestBody with _ | rb
        · simp only [hb] at hrb
          simp at hrb
        · simp only [hb] at hrb
          exact heading_not_mem_formatRequestBody rb hrb
    · rcases hr : op.responses with _ | rs
      · simp only [hr] at hresp
        simp at hresp
      · simp only [hr] at hresp
        exact heading_not_mem_formatResponses rs hresp
  · exact absurd (List.mem_singleton.mp h6) (by decide)

/-- The endpoints section contains the ENDPOINTS heading exactly once. -/
lemma count_formatEndpoints (paths : List (String × Option PathItem)) (doc : Document) :
    (formatEndpoints paths doc).count endpointsHeading = 1 := by
  unfold formatEndpoints
  have hz : (paths.flatMap (fun e =>
      match e.2 with
      | none => []
      | some pi =>
        let methods := (pi.map Prod.fst).filter (fun k => allPossibleMethods.contains k)
        methods.flatMap (fun m =>
          match pi.lookup m with
          | some (some op) => formatOperation m e.1 op doc
          | _ => []))).count endpointsHeading = 0 := by
    rw [List.count_eq_zero]
    intro hm
    rw [List.mem_flatMap] at hm
    obtain ⟨pe, _, hm1⟩ := hm
    rcases hpi : pe.2 with _ | pi
    · simp only [hpi] at hm1
      simp at hm1
    · simp only [hpi] at hm1
      rw [List.mem_flatMap] at hm1
      obtain ⟨me, _, hm2⟩ := hm1
      rcases hlk : pi.lookup me with _ | opq
      · simp only [hlk] at hm2
        simp at hm2
      · rcases opq with _ | op
        · simp only [hlk] at hm2
          simp at hm2
        · simp only [hlk] at hm2
          exact heading_not_mem_formatOperation me pe.1 op doc hm2
  rw [List.count_cons, hz]
  simp [endpointsHeading]

/-- The header block never contains the ENDPOINTS heading. -/
lemma heading_not_mem_formatHeader (info : Info) (srv : Option (List Server)) :
    endpointsHeading ∉ formatHeader info srv := by
  intro hm
  unfold formatHeader at hm
  rcases List.mem_append.mp hm with h2 | hsrv
  · rcases List.mem_append.mp h2 with h1 | hdesc
    · exact ne_heading_of_space _
        (sp_append_left _ _ (sp_append_left _ _ (sp_append_left _ _ (by decide))))
        (List.mem_singleton.mp h1).symm
    · rcases hd : truthyStr info.description with _ | d
      · simp only [hd] at hdesc
        simp at hdesc
      · simp only [hd] at hdesc
        exact ne_heading_of_space _ (sp_append_left _ _ (by decide))
          (List.mem_singleton.mp hdesc).symm
  · rcases srv with _ | l
    · simp at hsrv
    · rcases l with _ | ⟨prim, rest⟩
      · simp at hsrv
      · rcases List.mem_cons.mp hsrv with he | htail
        · exact ne_heading_of_space _ (sp_append_left _ _ (by decide)) he.symm
        · by_cases hr : rest.length > 0
          · rw [if_pos hr] at htail
            rcases List.mem_cons.mp htail with he | hmap
            · exact absurd he (by decide)
            · rw [List.mem_map] at hmap
              obtain ⟨s0, _, he⟩ := hmap
              exact ne_heading_of_space _
                (sp_append_left _ _ (sp_append_left _ _ (by decide))) he
          · rw [if_neg hr] at htail
            simp at htail

/-- Every body line of a schema block contains a space. -/
lemma sp_formatSchema_lines (sch : Schema) (ind : String) (pn : Option String) :
    ∀ s ∈ (formatSchema sch ind pn).2.1, ' ' ∈ s.data := by
  intro s hs
  unfold formatSchema at hs
  rcases hao : sch.allOf with _ | bs
  · rcases hoo : sch.oneOf with _ | bs
    · rcases hano : sch.anyOf with _ | bs
      · simp only [hao, hoo, hano] at hs
        by_cases hty : sch.type = some "array"
        · rw [if_pos hty] at hs
          rcases hit : sch.items with _ | it
          · simp only [hit] at hs
            simp at hs
          · simp only [hit] at hs
            rcases hir : it.ref with _ | r
            · simp only [hir] at hs
              by_cases hio : it.type = some "object"
              · rw [if_pos hio] at hs
                rw [List.mem_singleton.mp hs]
                exact sp_append_right _ _ (by decide)
              · rw [if_neg hio] at hs
                rw [List.mem_singleton.mp hs]
                exact sp_append_left _ _ (sp_append_right _ _ (by decide))
            · simp only [hir] at hs
              rw [List.mem_singleton.mp hs]
              exact sp_append_left _ _ (sp_append_right _ _ (by decide))
        · rw [if_neg hty] at hs
          rcases hpr : sch.properties with _ | props
          · simp only [hpr] at hs
            split at hs
            · simp at hs
            · split at hs
              · simp at hs
              · simp at hs
          · simp only [hpr] at hs
            rw [List.mem_map] at hs
            obtain ⟨e, _, he⟩ := hs
            rw [← he]
            exact sp_append_left _ _ (sp_append_left _ _ (sp_append_left _ _
              (sp_append_left _ _ (sp_append_right _ _ (by decide)))))
      · simp only [hao, hoo, hano] at hs
        simp at hs
    · simp only [hao, hoo] at hs
      simp at hs
  · simp only [hao] at hs
    simp at hs

/-- The schema listing never contains the ENDPOINTS heading. -/
lemma heading_not_mem_formatSchemas (schemas : List (String × Schema)) :
    endpointsHeading ∉ formatSchemas schemas := by
  intro hm
  unfold formatSchemas at hm
  rcases List.mem_append.mp hm with hlit | hfm
  · exact absurd hlit (by decide)
  · rw [List.mem_flatMap] at hfm
    obtain ⟨e, _, hb⟩ := hfm
    rcases List.mem_append.mp hb with hb1 | hv
    · rcases List.mem_append.mp hb1 with hb2 | he3
      · rcases List.mem_append.mp hb2 with hb3 | hl
        · exact ne_heading_of_space _ (sp_append_left _ _ (sp_append_right _ _ (by decide)))
            (List.mem_singleton.mp hb3).symm
        · exact ne_heading_of_space _ (sp_formatSchema_lines e.2 "  " (some e.1) _ hl) rfl
      · exact absurd (List.mem_singleton.mp he3) (by decide)
    · rw [List.mem_flatMap] at hv
      obtain ⟨v, _, hvb⟩ := hv
      rcases List.mem_append.mp hvb with hvb1 | hve3
      · rcases List.mem_append.mp hvb1 with hvb2 | hvl
        · exact ne_heading_of_space _ (sp_append_left _ _ (sp_append_right _ _ (by decide)))
            (List.mem_singleton.mp hvb2).symm
        · exact ne_heading_of_space _ (sp_formatSchema_lines v.2 "  " (some v.1) _ hvl) rfl
      · exact absurd (List.mem_singleton.mp hve3) (by decide)

/-- The security section never contains the ENDPOINTS heading. -/
lemma heading_not_mem_formatSecurity (ss : List (String × SecurityScheme)) :
    endpointsHeading ∉ formatSecurity ss := by
  intro hm
  unfold formatSecurity at hm
  rcases List.mem_cons.mp hm with he | hm2
  · exact absurd he (by decide)
  · rcases List.mem_append.mp hm2 with hfm | he3
    · rw [List.mem_flatMap] at hfm
      obtain ⟨e, _, hse⟩ := hfm
      dsimp only at hse
      repeat' split at hse
      all_goals first
        | exact absurd (List.mem_singleton.mp hse) (by decide)
        | exact absurd hse (List.not_mem_nil _)
        | exact ne_heading_of_space _
            (sp_append_left _ _ (sp_append_left _ _ (sp_append_left _ _ (sp_append_left _ _
              (by decide))))) (List.mem_singleton.mp hse).symm
        | exact ne_heading_of_space _
            (sp_append_left _ _ (sp_append_left _ _ (by decide)))
            (List.mem_singleton.mp hse).symm
    · exact absurd (List.mem_singleton.mp he3) (by decide)

/-- C10: for every document the section list contains the ENDPOINTS heading
exactly once, even when the paths mapping is absent or empty, in which case
the endpoints section is the bare heading with an empty body. -/
theorem c10_endpoints_heading_once :
    ∀ doc : Document,
      (openApiToLlmTextSections doc).count endpointsHeading = 1 ∧
      (doc.paths.getD [] = [] →
        formatEndpoints (doc.paths.getD []) doc = [endpointsHeading]) := by
  intro doc
  constructor
  · unfold openApiToLlmTextSections
    by_cases hsw : isSwagger2 doc = true
    · rw [if_pos hsw]
      simp only [List.count_append]
      rw [List.count_eq_zero.mpr (heading_not_mem_formatHeader _ _)]
      rw [count_formatEndpoints]
      rcases doc.definitions with _ | defs
      · rcases doc.securityDefinitions with _ | sd
        · rfl
        · rw [List.count_eq_zero.mpr (heading_not_mem_formatSecurity sd)]
          rfl
      · rw [List.count_eq_zero.mpr (heading_not_mem_formatSchemas defs)]
        rcases doc.securityDefinitions with _ | sd
        · rfl
        · rw [List.count_eq_zero.mpr (heading_not_mem_formatSecurity sd)]
    · rw [if_neg hsw]
      simp only [List.count_append]
      rw [List.count_eq_zero.mpr (heading_not_mem_formatHeader _ _)]
      rw [count_formatEndpoints]
      rcases doc.components.bind Components.schemas with _ | cs
      · rcases doc.components.bind Components.securitySchemes with _ | sd
        · rfl
        · rw [List.count_eq_zero.mpr (heading_not_mem_formatSecurity sd)]
          rfl
      · rw [List.count_eq_zero.mpr (heading_not_mem_formatSchemas cs)]
        rcases doc.components.bind Components.securitySchemes with _ | sd
        · rfl
        · rw [List.count_eq_zero.mpr (heading_not_mem_formatSecurity sd)]
  · intro h
    rw [h]
    rfl

/-- C10 witness: the theorem applied to a document without paths. -/
theorem c10_endpoints_heading_once_witness :
    (openApiToLlmTextSections bareDoc).count endpointsHeading = 1 ∧
    formatEndpoints (bareDoc.paths.getD []) bareDoc = [endpointsHeading] :=
  ⟨(c10_endpoints_heading_once bareDoc).1, (c10_endpoints_heading_once bareDoc).2 rfl⟩
